import Mathlib

/-!
Verification of the nntm todo viewer core (src/nntm.c): the line codec
(`load_todos` / `save_todos_to_file`), the priority folding in
`toggle_completed`, the store mutations (`add_new_todo`,
`archive_completed_todos`, `add_type`, `pipe_reader_thread`) and the
I/O failure classification.  C strings are modelled as `List Char`,
the fixed-size struct fields as bounded-length lists, pointers into a
line as suffixes of that line.
-/

/-- C strings (the contents up to the terminating NUL). -/
abbrev CStr := List Char

/-- The `Todo` struct of nntm.c. -/
structure Todo where
  completed : Bool
  completion_date : CStr
  date : CStr
  priority : CStr
  type : CStr
  text : CStr
deriving DecidableEq, Repr

/-- C `isspace` in the C locale (space, \t, \n, \v, \f, \r). -/
def isspaceB (c : Char) : Bool :=
  c == ' ' || c == '\t' || c == '\n' || c == '\x0b' || c == '\x0c' || c == '\r'

/-- C `isalpha` in the C locale. -/
def isalphaB (c : Char) : Bool :=
  ('a' ≤ c && c ≤ 'z') || ('A' ≤ c && c ≤ 'Z')

/-- `sscanf(p, "%Ns", buf)`: skip leading whitespace, then read at most `n`
non-whitespace characters.  Returns `[]` when no token is found (in which
case the C code leaves the destination buffer untouched). -/
def scanTok (n : Nat) (s : CStr) : CStr :=
  ((s.dropWhile isspaceB).takeWhile (fun c => !isspaceB c)).take n

/-- The `while (isspace(*p)) p++;` idiom. -/
def skipWs (s : CStr) : CStr := s.dropWhile isspaceB

/-- `line[strcspn(line, "\r\n")] = '\0'`: truncate at the first CR or LF. -/
def trimNl (s : CStr) : CStr :=
  s.takeWhile (fun c => !(c == '\r' || c == '\n'))

/-- The dummy date `strcpy(t->date, "2025-05-12")` preset in `load_todos`
before parsing. -/
def dummyDate : CStr := "2025-05-12".toList

/-- The dummy type `strcpy(t->type, "stream")` preset in `load_todos`
before parsing. -/
def dummyType : CStr := "stream".toList

/-- The priority test `p[0]=='(' && isalpha(p[1]) && p[2]==')'` at the
current parse position. -/
def priShapeB : CStr → Bool
  | a :: b :: c :: _ => a == '(' && isalphaB b && c == ')'
  | _ => false

/-- Step 1 of `load_todos` line parsing: the leading `"x "` completion
marker and the completion date.  Returns (completed, completion_date,
rest).  `p += strlen(t->completion_date)` advances from the position
before `sscanf`'s whitespace skip, which the `drop` reproduces. -/
def step1 (line : CStr) : Bool × CStr × CStr :=
  if line.take 2 = ['x', ' '] then
    let r := line.drop 2
    let cd := scanTok 10 r
    (true, cd, skipWs (r.drop cd.length))
  else
    (false, [], line)

/-- Steps 2/4 of `load_todos`: the `(X)` priority probe at the current
position; on a hit `strncpy(t->priority, p, 3); p += 4`. -/
def stepPri (r : CStr) : CStr × CStr :=
  if priShapeB r then (r.take 3, skipWs (r.drop 4)) else ([], r)

/-- Step 3 of `load_todos`: the date token.  On `sscanf` failure the
field keeps the dummy date and `p += strlen(t->date)` still advances by
its length (10). -/
def stepDate (r : CStr) : CStr × CStr :=
  let tok := scanTok 10 r
  let d := if tok = [] then dummyDate else tok
  (d, skipWs (r.drop d.length))

/-- Step 5 of `load_todos`: the `@type` token.  On `sscanf` failure after
the `@` the field keeps the dummy type.  Without a leading `@` the type
becomes `"all"`. -/
def stepType (r : CStr) : CStr × CStr :=
  match r with
  | a :: r2 =>
    if a = '@' then
      let tok := scanTok 31 r2
      let ty := if tok = [] then dummyType else tok
      (ty, skipWs (r2.drop ty.length))
    else ("all".toList, r)
  | [] => ("all".toList, r)

/-- The line decoder: the parsing body of `load_todos` applied to one
newline-trimmed line (steps 1-6). -/
def decode (line : CStr) : Todo :=
  let s1 := step1 line
  let s2 := stepPri s1.2.2
  let s3 := stepDate s2.2
  let s4 := if s2.1 = [] then stepPri s3.2 else (s2.1, s3.2)
  let s5 := stepType s4.2
  { completed := s1.1
    completion_date := s1.2.1
    date := s3.1
    priority := s4.1
    type := s5.1
    text := s5.2.take 511 }

/-- Decoding of a raw line as `load_todos` does it: trim the trailing
newline, then parse. -/
def decodeLine (raw : CStr) : Todo := decode (trimNl raw)

/-- One serialized line of `save_todos_to_file`, without the terminating
newline: `"x %s %s @%s %s"`, `"%s %s @%s %s"` or `"%s @%s %s"`. -/
def encodeBody (t : Todo) : CStr :=
  if t.completed then
    "x ".toList ++ (t.completion_date ++ (' ' :: (t.date ++ (' ' :: '@' :: (t.type ++ (' ' :: t.text))))))
  else if t.priority ≠ [] then
    t.priority ++ (' ' :: (t.date ++ (' ' :: '@' :: (t.type ++ (' ' :: t.text)))))
  else
    t.date ++ (' ' :: '@' :: (t.type ++ (' ' :: t.text)))

/-- One serialized line of `save_todos_to_file` including the `fputc('\n', f)`. -/
def encode (t : Todo) : CStr := encodeBody t ++ ['\n']

/-- `save_todos_to_file`: on open failure the write is abandoned
(`none`); otherwise the file holds every record's serialized line. -/
def saveTodosToFile (openOk : Bool) (todos : List Todo) : Option (List CStr) :=
  if openOk then some (todos.map encode) else none

/-- `add_type`: scan the registry for the token, append when absent.
The C code performs no capacity check here. -/
def addType (types : List CStr) (ty : CStr) : List CStr :=
  if ty ∈ types then types else types ++ [ty]

/-- The filter test used by every visible-index scan: process the record
iff the selected type is `"all"` or matches the record's type. -/
def matchesFilter (cat : CStr) (t : Todo) : Bool :=
  cat = "all".toList || t.type = cat

/-- The record built by `add_new_todo`: zeroed struct, today's date, the
currently selected type (`strncpy` bounded by MAX_TYPE-1 = 31), the
prompted text. -/
def mkNewTodo (today ty text : CStr) : Todo :=
  { completed := false
    completion_date := []
    date := today
    priority := []
    type := ty.take 31
    text := text }

/-- The insertion scan of `add_new_todo`: insert right after the
`idx`-th visible record; when the scan finds no such record, append at
the end. -/
def insertAfterVisible (cat : CStr) (idx : Nat) (nt : Todo) : List Todo → List Todo
  | [] => [nt]
  | t :: rest =>
    if matchesFilter cat t then
      if idx = 0 then t :: nt :: rest
      else t :: insertAfterVisible cat (idx - 1) nt rest
    else t :: insertAfterVisible cat idx nt rest

/-- `add_new_todo`: refused in streaming mode, refused at capacity,
refused on empty text; otherwise inserts after the selected visible
record (with fallback append). -/
def addNewTodo (streaming : Bool) (today cat text : CStr) (selIdx : Nat)
    (todos : List Todo) : List Todo :=
  if streaming then todos
  else if todos.length ≥ 1000 then todos
  else if text = [] then todos
  else insertAfterVisible cat selIdx (mkNewTodo today cat text) todos

/-- `strstr(s, pat)` for a nonempty pattern: index of the first
occurrence of `pat` in `s`, when there is one. -/
def findSub (pat : CStr) : CStr → Option Nat
  | [] => if pat.isPrefixOf ([] : CStr) then some 0 else none
  | c :: rest =>
    if pat.isPrefixOf (c :: rest) then some 0
    else (findSub pat rest).map (· + 1)

/-- The trailing-whitespace trim loop at the end of the un-complete
branch of `toggle_completed`. -/
def rtrim (s : CStr) : CStr := (s.reverse.dropWhile isspaceB).reverse

/-- The `" pri:"` marker searched by `strstr` on un-completion. -/
def priMarker : CStr := " pri:".toList

/-- The record-level transformation of `toggle_completed` on the
addressed record.  Completing stamps today's completion date and folds
a `"(X)"` priority into a `" pri:X"` text suffix (only when not already
a substring and only when it fits `MAX_LINE`); un-completing clears the
completion date and, when the first `" pri:"` occurrence is a
six-character tail with an alphabetic last character, restores the
priority, cuts the tail and trims trailing whitespace. -/
def toggleRecord (today : CStr) (t : Todo) : Todo :=
  if t.completed then
    let t1 : Todo := { t with completed := false, completion_date := [] }
    match findSub priMarker t1.text with
    | none => t1
    | some i =>
      let tail := t1.text.drop i
      match tail.get? 5 with
      | none => t1
      | some c5 =>
        if tail.length = 6 && isalphaB c5 then
          { t1 with priority := ['(', c5, ')'], text := rtrim (t1.text.take i) }
        else t1
  else
    let t1 : Todo := { t with completed := true, completion_date := today }
    match t1.priority with
    | '(' :: c :: ')' :: _ =>
      let tag := priMarker ++ [c]
      let newText :=
        if (findSub tag t1.text).isNone && t1.text.length + tag.length < 512 then
          t1.text ++ tag
        else t1.text
      { t1 with priority := [], text := newText }
    | _ => t1

/-- `toggle_completed` at store level: scan for the `idx`-th record
visible under the selected type, toggle it, and (only outside streaming
mode) request the save; out-of-range indices are a no-op.  The returned
Bool records whether `save_todos_to_file` was invoked. -/
def toggleCompleted (streaming : Bool) (today cat : CStr) (idx : Nat) :
    List Todo → List Todo × Bool
  | [] => ([], false)
  | t :: rest =>
    if matchesFilter cat t then
      if idx = 0 then (toggleRecord today t :: rest, !streaming)
      else
        let r := toggleCompleted streaming today cat (idx - 1) rest
        (t :: r.1, r.2)
    else
      let r := toggleCompleted streaming today cat idx rest
      (t :: r.1, r.2)

/-- C `toupper` in the C locale. -/
def toupperC (c : Char) : Char :=
  if 'a' ≤ c && c ≤ 'z' then Char.ofNat (c.toNat - 32) else c

/-- The record-level mutation of `prompt_priority` for key code `ch`
(`getch` result): refused on completed records; space/backspace/DEL
clears; a letter sets `"(C)"` upper-cased; other keys change nothing. -/
def setPriorityRecord (t : Todo) (ch : Nat) : Todo :=
  if t.completed then t
  else if ch = 32 || ch = 263 || ch = 127 then { t with priority := [] }
  else if (97 ≤ ch && ch ≤ 122) || (65 ≤ ch && ch ≤ 90) then
    { t with priority := ['(', toupperC (Char.ofNat ch), ')'] }
  else t

/-- The removal loop of `archive_completed_todos`: keep incomplete
records in place, write each completed record's line and shift the rest
left.  Returns (remaining records, archived lines in write order). -/
def archiveLoop : List Todo → List Todo × List CStr
  | [] => ([], [])
  | t :: rest =>
    let r := archiveLoop rest
    if t.completed then (r.1, encode t :: r.2) else (t :: r.1, r.2)

/-- `archive_completed_todos`: on archive-file open failure nothing
changes; otherwise completed records are written out and removed, and
`save_todos_to_file` runs only outside streaming mode and only when the
archived count is positive.  Returns (remaining records, archived
lines, save performed). -/
def archiveCompletedTodos (streaming openOk : Bool) (todos : List Todo) :
    List Todo × List CStr × Bool :=
  if !openOk then (todos, [], false)
  else
    let r := archiveLoop todos
    (r.1, r.2, !streaming && decide (0 < r.2.length))

/-- The per-line record synthesis of `pipe_reader_thread`: locate the
first `@`, scan its token to the next whitespace, excise
`@token` from the line by `memmove` (this keeps the separator character
before the `@`), keep the token as the type only when its length is in
(0, 32), stamp today's date; the record is never completed and never
carries a priority.  Returns the record and the type to register. -/
def pipeIngestRecord (today line : CStr) : Todo × Option CStr :=
  match findSub ['@'] line with
  | none =>
    ({ completed := false, completion_date := [], date := today,
       priority := [], type := "all".toList, text := line.take 511 }, none)
  | some i =>
    let afterAt := (line.drop (i + 1)).takeWhile (fun c => !isspaceB c)
    let line2 := line.take i ++ (line.drop (i + 1)).drop afterAt.length
    if 0 < afterAt.length && afterAt.length < 32 then
      ({ completed := false, completion_date := [], date := today,
         priority := [], type := afterAt, text := line2.take 511 }, some afterAt)
    else
      ({ completed := false, completion_date := [], date := today,
         priority := [], type := "all".toList, text := line2.take 511 }, none)

/-- One pipe line ingested by `pipe_reader_thread` under the lock: at
capacity the line is dropped; otherwise the line is newline-trimmed,
parsed by the pipe-specific variant, appended at the end, and its type
(if any) registered. -/
def pipeIngestLine (today rawLine : CStr) (todos : List Todo)
    (types : List CStr) : List Todo × List CStr :=
  if todos.length ≥ 1000 then (todos, types)
  else
    let line := trimNl rawLine
    let r := pipeIngestRecord today line
    (todos ++ [r.1],
     match r.2 with
     | some ty => addType types ty
     | none => types)

/-- The distinct I/O failure conditions handled in nntm.c. -/
inductive IOCond
  | batchOpenFail
  | statFail
  | saveOpenFail
  | archiveOpenFail
  | pipeOpenFail
deriving DecidableEq, Repr

/-- Whether each I/O failure terminates the process: `load_todos` and
`is_pipe_input` call `exit(1)`; `save_todos_to_file` and
`archive_completed_todos` perror and return; `pipe_reader_thread`
perrors, sleeps and retries. -/
def ioFatal : IOCond → Bool
  | .batchOpenFail => true
  | .statFail => true
  | .saveOpenFail => false
  | .archiveOpenFail => false
  | .pipeOpenFail => false

/-- The completed/incomplete record dichotomy of the spec: completed
records carry a completion date and no active priority; incomplete
records carry no completion date. -/
def recInvB (t : Todo) : Bool :=
  if t.completed then !t.completion_date.isEmpty && t.priority.isEmpty
  else t.completion_date.isEmpty

/-- A well-formed whitespace-free token of at most `n` characters. -/
def tokOkB (n : Nat) (s : CStr) : Bool :=
  !s.isEmpty && s.length ≤ n && s.all (fun c => !isspaceB c)

/-- Whether a string is empty or starts with a non-whitespace character. -/
def headOk (s : CStr) : Bool :=
  match s with
  | [] => true
  | c :: _ => !isspaceB c

/-- A well-formed free-text field: at most 511 characters (the
`MAX_LINE - 1` copy bound), no CR/LF, and no leading whitespace. -/
def textOkB (s : CStr) : Bool :=
  s.length ≤ 511 && s.all (fun c => !(c == '\r' || c == '\n')) && headOk s

/-- The parse position at which step 3 of `load_todos` scans for the
date token (after the completion marker and the first priority probe). -/
def restBeforeDate (line : CStr) : CStr := (stepPri (step1 line).2.2).2

/-! ### Token-consumption lemmas for the decoder -/

lemma takeWhile_append_all {p : Char → Bool} {l : CStr} (r : CStr)
    (h : ∀ c ∈ l, p c = true) : (l ++ r).takeWhile p = l ++ r.takeWhile p := by
  induction l with
  | nil => simp
  | cons a tl ih =>
    rw [List.cons_append, List.takeWhile_cons, if_pos (h a (by simp)), List.cons_append]
    rw [ih fun c hc => h c (by simp [hc])]

lemma tokOkB_unpack {n : Nat} {s : CStr} (h : tokOkB n s = true) :
    s ≠ [] ∧ s.length ≤ n ∧ ∀ c ∈ s, isspaceB c = false := by
  simp only [tokOkB, Bool.and_eq_true, Bool.not_eq_true', decide_eq_true_eq,
    List.all_eq_true] at h
  refine ⟨?_, h.1.2, fun c hc => by simpa using h.2 c hc⟩
  intro hnil
  rw [hnil] at h
  simp at h

lemma textOkB_unpack {s : CStr} (h : textOkB s = true) :
    s.length ≤ 511 ∧ (∀ c ∈ s, (c == '\r' || c == '\n') = false) ∧ headOk s = true := by
  simp only [textOkB, Bool.and_eq_true, decide_eq_true_eq, List.all_eq_true] at h
  exact ⟨h.1.1, fun c hc => by simpa using h.1.2 c hc, h.2⟩

lemma skipWs_of_headOk {r : CStr} (h : headOk r = true) : skipWs r = r := by
  cases r with
  | nil => rfl
  | cons a l =>
    simp only [headOk, Bool.not_eq_true'] at h
    simp [skipWs, List.dropWhile_cons, h]

lemma skipWs_cons_space (r : CStr) : skipWs (' ' :: r) = skipWs r := by
  simp [skipWs, List.dropWhile_cons, show isspaceB ' ' = true from rfl]

lemma headOk_of_tok {d : CStr} (rest : CStr) (hne : d ≠ [])
    (hall : ∀ c ∈ d, isspaceB c = false) : headOk (d ++ rest) = true := by
  cases d with
  | nil => exact absurd rfl hne
  | cons a tl => simp [headOk, hall a (by simp)]

lemma scanTok_exact {n : Nat} {tok : CStr} (rest : CStr) (h1 : tok ≠ [])
    (h2 : ∀ c ∈ tok, isspaceB c = false) (h3 : tok.length ≤ n) :
    scanTok n (tok ++ ' ' :: rest) = tok := by
  obtain ⟨a, tl, rfl⟩ : ∃ a tl, tok = a :: tl := by
    cases tok with
    | nil => exact absurd rfl h1
    | cons a tl => exact ⟨a, tl, rfl⟩
  unfold scanTok
  rw [List.cons_append, List.dropWhile_cons, if_neg (by simp [h2 a (by simp)]),
    ← List.cons_append]
  rw [takeWhile_append_all (' ' :: rest) (fun c hc => by simp [h2 c hc])]
  rw [List.takeWhile_cons, if_neg (by simp [show isspaceB ' ' = true from rfl]),
    List.append_nil]
  exact List.take_of_length_le h3

lemma scanTok_drop_skip {tok : CStr} (rest : CStr) (h4 : headOk rest = true) :
    skipWs ((tok ++ ' ' :: rest).drop tok.length) = rest := by
  rw [List.drop_left, skipWs_cons_space, skipWs_of_headOk h4]

lemma priShapeB_append {d : CStr} (rest : CStr) (hne : d ≠ [])
    (hall : ∀ c ∈ d, isspaceB c = false) (h : priShapeB d = false) :
    priShapeB (d ++ ' ' :: rest) = false := by
  match d, hne with
  | [a], _ =>
    cases rest with
    | nil => rfl
    | cons r0 rr => simp [priShapeB, show isalphaB ' ' = false from rfl]
  | [a, b], _ =>
    simp [priShapeB, show (' ' == ')') = false from rfl]
  | a :: b :: c :: tl, _ =>
    simpa [priShapeB] using h

lemma priShapeB_not_paren {a : Char} {r : CStr} (h : (a == '(') = false) :
    priShapeB (a :: r) = false := by
  cases r with
  | nil => rfl
  | cons b rr =>
    cases rr with
    | nil => rfl
    | cons c tl => simp [priShapeB, h]

lemma step1_skip {d : CStr} (rest : CStr) (hne : d ≠ [])
    (hall : ∀ c ∈ d, isspaceB c = false) (hx : d ≠ ['x']) :
    step1 (d ++ ' ' :: rest) = (false, [], d ++ ' ' :: rest) := by
  have hne2 : (d ++ ' ' :: rest).take 2 ≠ ['x', ' '] := by
    cases d with
    | nil => exact absurd rfl hne
    | cons a tl =>
      cases tl with
      | nil =>
        simp only [List.cons_append, List.nil_append, List.take_succ_cons,
          List.take_zero]
        intro hEq
        apply hx
        have : a = 'x' := by
          have := List.head_eq_of_cons_eq hEq
          exact this
        simp [this]
      | cons b tl2 =>
        have hb : isspaceB b = false := hall b (by simp)
        simp only [List.cons_append, List.take_succ_cons, List.take_zero]
        intro hEq
        have : b = ' ' := by
          injection hEq with h1 h2
          injection h2 with h3 h4
        rw [this] at hb
        exact absurd hb (by simp [show isspaceB ' ' = true from rfl])
  unfold step1
  rw [if_neg hne2]

lemma step1_completed {cd : CStr} (rest : CStr) (h : tokOkB 10 cd = true)
    (h4 : headOk rest = true) :
    step1 ('x' :: ' ' :: (cd ++ ' ' :: rest)) = (true, cd, rest) := by
  obtain ⟨hne, hlen, hall⟩ := tokOkB_unpack h
  unfold step1
  rw [if_pos (by simp)]
  simp only [List.drop_succ_cons, List.drop_zero]
  rw [scanTok_exact rest hne hall hlen, scanTok_drop_skip rest h4]

lemma stepPri_none {r : CStr} (h : priShapeB r = false) : stepPri r = ([], r) := by
  simp [stepPri, h]

lemma stepPri_hit {c : Char} (rest : CStr) (hc : isalphaB c = true)
    (h4 : headOk rest = true) :
    stepPri ('(' :: c :: ')' :: ' ' :: rest) = (['(', c, ')'], rest) := by
  have hp : priShapeB ('(' :: c :: ')' :: ' ' :: rest) = true := by
    simp [priShapeB, hc]
  simp only [stepPri, hp, if_true]
  rw [show ('(' :: c :: ')' :: ' ' :: rest).take 3 = ['(', c, ')'] from rfl]
  rw [show ('(' :: c :: ')' :: ' ' :: rest).drop 4 = rest from rfl]
  rw [skipWs_of_headOk h4]

lemma stepDate_exact {d : CStr} (rest : CStr) (h : tokOkB 10 d = true)
    (h4 : headOk rest = true) : stepDate (d ++ ' ' :: rest) = (d, rest) := by
  obtain ⟨hne, hlen, hall⟩ := tokOkB_unpack h
  unfold stepDate
  rw [scanTok_exact rest hne hall hlen]
  simp only [hne, if_false, if_neg hne]
  rw [scanTok_drop_skip rest h4]

lemma stepType_exact {ty tx : CStr} (h : tokOkB 31 ty = true)
    (htx : headOk tx = true) : stepType ('@' :: (ty ++ ' ' :: tx)) = (ty, tx) := by
  obtain ⟨hne, hlen, hall⟩ := tokOkB_unpack h
  have hred : stepType ('@' :: (ty ++ ' ' :: tx)) =
      ((if scanTok 31 (ty ++ ' ' :: tx) = [] then dummyType
        else scanTok 31 (ty ++ ' ' :: tx)),
       skipWs ((ty ++ ' ' :: tx).drop
         (if scanTok 31 (ty ++ ' ' :: tx) = [] then dummyType
          else scanTok 31 (ty ++ ' ' :: tx)).length)) := rfl
  rw [hred, scanTok_exact tx hne hall hlen, if_neg hne, List.drop_left,
    skipWs_cons_space, skipWs_of_headOk htx]

lemma trimNl_body {l : CStr} (h : ∀ c ∈ l, (c == '\r' || c == '\n') = false) :
    trimNl (l ++ ['\n']) = l := by
  unfold trimNl
  rw [takeWhile_append_all ['\n'] (fun c hc => by simp [h c hc])]
  simp

lemma nonspace_noCRLF {s : CStr} (h : ∀ c ∈ s, isspaceB c = false) :
    ∀ c ∈ s, (c == '\r' || c == '\n') = false := by
  intro c hc
  have h2 := h c hc
  simp only [isspaceB, Bool.or_eq_false_iff] at h2
  obtain ⟨⟨⟨⟨⟨hsp, hht⟩, hn⟩, hv⟩, hf⟩, hr⟩ := h2
  simp [hn, hr]

/-! ### Store-level helper lemmas -/

lemma toggleCompleted_stream_nosave (today cat : CStr) (idx : Nat) (l : List Todo) :
    (toggleCompleted true today cat idx l).2 = false := by
  induction l generalizing idx with
  | nil => rfl
  | cons t rest ih =>
    by_cases hm : matchesFilter cat t = true
    · by_cases hi : idx = 0
      · simp [toggleCompleted, hm, hi]
      · simp [toggleCompleted, hm, hi, ih]
    · simp only [Bool.not_eq_true] at hm
      simp [toggleCompleted, hm, ih]

lemma archiveLoop_eq (l : List Todo) :
    archiveLoop l = (l.filter (fun t => !t.completed),
      (l.filter (fun t => t.completed)).map encode) := by
  induction l with
  | nil => rfl
  | cons t rest ih =>
    unfold archiveLoop
    rw [ih]
    cases hc : t.completed <;> simp [List.filter_cons, hc]

lemma length_pos_decide_isEmpty {α : Type} (xs : List α) :
    decide (0 < xs.length) = !xs.isEmpty := by
  cases xs <;> simp

lemma isEmpty_map_eq {α β : Type} (f : α → β) (xs : List α) :
    (xs.map f).isEmpty = xs.isEmpty := by
  cases xs <;> simp

/-! ### Claim theorems -/

/-- Claim C3, counterexample: decoding the well-formed external line
`"x 2020-01-02 2020-01-01 (A) @w hi"` yields a record that is completed
and still carries the non-empty priority `"(A)"`, so the completed/no-priority
dichotomy does not survive `Decode` of arbitrary input. -/
theorem c3_counterexample :
    recInvB (decodeLine "x 2020-01-02 2020-01-01 (A) @w hi".toList) = false ∧
    (decodeLine "x 2020-01-02 2020-01-01 (A) @w hi".toList).completed = true ∧
    (decodeLine "x 2020-01-02 2020-01-01 (A) @w hi".toList).priority = "(A)".toList := by
  decide

/-- Claim C3, amended: the completed/incomplete dichotomy (completed has a
completion date and empty priority, incomplete has an empty completion date)
holds for every record produced by the mutation operations — interactive add,
pipe ingestion, completion toggling on records with empty or well-shaped
priority, and priority setting on records already satisfying the dichotomy —
but not for `Decode` of arbitrary input lines. -/
theorem c3_invariant_amended (today : CStr) (t : Todo) (ch : Nat)
    (h1 : today ≠ [])
    (h2 : t.priority = [] ∨ ∃ c, t.priority = ['(', c, ')'])
    (h3 : recInvB t = true) :
    recInvB (mkNewTodo today t.type t.text) = true ∧
    recInvB (pipeIngestRecord today t.text).1 = true ∧
    recInvB (toggleRecord today t) = true ∧
    recInvB (setPriorityRecord t ch) = true := by
  refine ⟨rfl, ?_, ?_, ?_⟩
  · unfold pipeIngestRecord
    cases hf : findSub ['@'] t.text with
    | none => rfl
    | some i => dsimp only; split <;> rfl
  · unfold toggleRecord
    cases hcomp : t.completed with
    | true =>
      rw [if_pos (rfl : true = true)]
      dsimp only
      split
      · rfl
      · split
        · rfl
        · split <;> rfl
    | false =>
      rw [if_neg (by simp : ¬ false = true)]
      dsimp only
      rcases h2 with h2 | ⟨c, h2⟩ <;> rw [h2] <;> simp [recInvB, h1]
  · unfold setPriorityRecord
    cases hcomp : t.completed with
    | true =>
      rw [if_pos (rfl : true = true)]
      exact h3
    | false =>
      have hcd : t.completion_date.isEmpty = true := by
        unfold recInvB at h3
        rwa [if_neg (by simp [hcomp])] at h3
      rw [if_neg (by simp : ¬ false = true)]
      split
      · simp [recInvB, hcd]
      · split
        · simp [recInvB, hcd]
        · simp [recInvB, hcomp, hcd]

/-- Claim C3, witness for the amended theorem at a concrete record. -/
theorem c3_invariant_amended_witness :
    recInvB (toggleRecord "2025-01-04".toList
      { completed := false, completion_date := [], date := "2025-01-03".toList,
        priority := "(B)".toList, type := "work".toList, text := "hi".toList }) = true :=
  (c3_invariant_amended "2025-01-04".toList
    { completed := false, completion_date := [], date := "2025-01-03".toList,
      priority := "(B)".toList, type := "work".toList, text := "hi".toList } 32
    (by decide) (Or.inr ⟨'B', rfl⟩) (by decide)).2.2.1

/-- Claim C4: the two field orderings `"(A) 2025-01-01 @work buy milk"` and
`"2025-01-01 (A) @work buy milk"` decode to the same record, with priority
`"(A)"`, date `"2025-01-01"`, category `"work"` and text `"buy milk"`. -/
theorem c4_order_ambiguity :
    decodeLine "(A) 2025-01-01 @work buy milk".toList =
      decodeLine "2025-01-01 (A) @work buy milk".toList ∧
    decodeLine "(A) 2025-01-01 @work buy milk".toList =
      { completed := false, completion_date := [], date := "2025-01-01".toList,
        priority := "(A)".toList, type := "work".toList,
        text := "buy milk".toList } := by
  decide

/-- Claim C5, counterexample: ingesting the pipe line
`"buy milk @errands"` leaves the separator space before the excised
`@errands` token in place, so the appended record's text is
`"buy milk "` (trailing space), not `"buy milk"`. -/
theorem c5_counterexample :
    ((pipeIngestLine "2025-10-11".toList "buy milk @errands".toList [] []).1.map
      Todo.text) ≠ ["buy milk".toList] := by
  decide

/-- Claim C5, amended: ingesting `"buy milk @errands"` under capacity appends
exactly one record with category `"errands"`, the ingestion-time date,
`completed = false`, and text `"buy milk "` — the category token is excised
but the whitespace separating it from the text is kept. -/
theorem c5_stream_ingest_amended (today : CStr) (todos : List Todo)
    (types : List CStr) (h : todos.length < 1000) :
    pipeIngestLine today "buy milk @errands".toList todos types =
      (todos ++ [{ completed := false, completion_date := [], date := today,
                   priority := [], type := "errands".toList,
                   text := "buy milk ".toList }],
       addType types "errands".toList) := by
  have hrec : pipeIngestRecord today (trimNl "buy milk @errands".toList) =
      ({ completed := false, completion_date := [], date := today,
         priority := [], type := "errands".toList,
         text := "buy milk ".toList }, some "errands".toList) := rfl
  simp only [pipeIngestLine, if_neg (by omega : ¬ todos.length ≥ 1000), hrec]

/-- Claim C5, witness for the amended theorem on an empty store. -/
theorem c5_stream_ingest_witness :
    pipeIngestLine "2025-10-11".toList "buy milk @errands".toList [] [] =
      ([{ completed := false, completion_date := [], date := "2025-10-11".toList,
          priority := [], type := "errands".toList,
          text := "buy milk ".toList }],
       addType [] "errands".toList) :=
  c5_stream_ingest_amended "2025-10-11".toList [] [] (by decide)

/-- Claim C6, counterexample: in streaming mode `toggle_completed` is not
suppressed — toggling the first visible record of a one-record store
changes the task sequence. -/
theorem c6_counterexample :
    (toggleCompleted true "2025-01-04".toList "all".toList 0
      [{ completed := false, completion_date := [], date := "2025-01-03".toList,
         priority := [], type := "work".toList, text := "hi".toList }]).1 ≠
    [{ completed := false, completion_date := [], date := "2025-01-03".toList,
       priority := [], type := "work".toList, text := "hi".toList }] := by
  decide

/-- Claim C6, amended: in streaming mode only add-new-record is suppressed
outright; toggle-completed and archive still mutate the in-memory sequence
and are merely cut off from the backing-file persistence write. -/
theorem c6_streaming_amended :
    (∀ (today cat text : CStr) (selIdx : Nat) (todos : List Todo),
        addNewTodo true today cat text selIdx todos = todos) ∧
    (∀ (today cat : CStr) (idx : Nat) (todos : List Todo),
        (toggleCompleted true today cat idx todos).2 = false) ∧
    (∀ (openOk : Bool) (todos : List Todo),
        (archiveCompletedTodos true openOk todos).2.2 = false) := by
  refine ⟨fun _ _ _ _ _ => rfl, fun today cat idx todos =>
    toggleCompleted_stream_nosave today cat idx todos, fun openOk todos => ?_⟩
  cases openOk <;> simp [archiveCompletedTodos]

/-- Claim C7: archiving with a successfully opened archive file removes
exactly the completed records (ignoring the category filter), keeps the
incomplete records in their relative order (a sublist of the original),
writes the completed records' serialized lines in order, and requests the
backing-file write only outside streaming mode and only when at least one
record was archived. -/
theorem c7_archive (streaming : Bool) (l : List Todo) :
    (archiveCompletedTodos streaming true l).1 = l.filter (fun t => !t.completed) ∧
    (archiveCompletedTodos streaming true l).2.1 =
      (l.filter (fun t => t.completed)).map encode ∧
    (archiveCompletedTodos streaming true l).2.2 =
      (!streaming && !((l.filter (fun t => t.completed)).map encode).isEmpty) ∧
    ((archiveCompletedTodos streaming true l).1.Sublist l) := by
  have h := archiveLoop_eq l
  refine ⟨?_, ?_, ?_, ?_⟩
  · simp [archiveCompletedTodos, h]
  · simp [archiveCompletedTodos, h]
  · simp [archiveCompletedTodos, h, length_pos_decide_isEmpty, isEmpty_map_eq]
  · simp [archiveCompletedTodos, h, List.filter_sublist]

/-- Claim C8: `add_type` has no capacity check — registering an unseen
category when the registry already holds its array bound of 1000 entries
appends a 1001st entry (an out-of-bounds write in the C program) instead of
being a silent no-op. -/
theorem c8_addType_unchecked :
    (addType (List.replicate 1000 "occupied".toList) "newcat".toList).length = 1001 := by
  have hmem : "newcat".toList ∉ List.replicate 1000 "occupied".toList := by
    simp only [List.mem_replicate]
    intro hc
    exact absurd hc.2 (by decide)
  unfold addType
  rw [if_neg hmem, List.length_append, List.length_replicate]
  rfl

/-- Claim C9, counterexample: a failing `stat` of the supplied path in
`is_pipe_input` also terminates the process, so the batch-mode open failure
is not the only fatal I/O condition. -/
theorem c9_counterexample :
    ioFatal IOCond.statFail = true ∧ IOCond.statFail ≠ IOCond.batchOpenFail := by
  decide

/-- Claim C9, amended: exactly two I/O conditions terminate the process —
the batch-mode backing-file open failure and the startup `stat` failure;
a failed save open abandons the write, and a failed archive open leaves the
store untouched with nothing written and no save. -/
theorem c9_fatality_amended :
    (∀ c : IOCond, ioFatal c = true ↔ (c = IOCond.batchOpenFail ∨ c = IOCond.statFail)) ∧
    (∀ l : List Todo, saveTodosToFile false l = none) ∧
    (∀ (st : Bool) (l : List Todo), archiveCompletedTodos st false l = (l, [], false)) := by
  refine ⟨fun c => ?_, fun l => rfl, fun st l => rfl⟩
  cases c <;> simp [ioFatal]

/-- Claim C10: whenever the date step of the decoder scans no token (for
example on an empty line), the decoded record's date is the hard-coded
dummy constant `"2025-05-12"`. -/
theorem c10_dummy_date (line : CStr) (h : scanTok 10 (restBeforeDate line) = []) :
    (decode line).date = "2025-05-12".toList := by
  have hd : (decode line).date =
      (if scanTok 10 (restBeforeDate line) = [] then dummyDate
       else scanTok 10 (restBeforeDate line)) := rfl
  rw [hd, if_pos h]
  rfl

/-- Claim C10, witness: the empty line decodes with the dummy date. -/
theorem c10_dummy_date_witness : (decode ([] : CStr)).date = "2025-05-12".toList :=
  c10_dummy_date [] (by decide)

/-! ### Round-trip lemmas (claim C1) -/

lemma tok_all_noCRLF {s : CStr} (h : ∀ c ∈ s, isspaceB c = false) :
    s.all (fun c => !(c == '\r' || c == '\n')) = true := by
  rw [List.all_eq_true]
  intro c hc
  simpa using nonspace_noCRLF h c hc

lemma trimNl_body_all {l : CStr}
    (h : l.all (fun c => !(c == '\r' || c == '\n')) = true) :
    trimNl (l ++ ['\n']) = l := by
  apply trimNl_body
  intro c hc
  simpa using List.all_eq_true.mp h c hc

lemma decodeLine_encode (t : Todo)
    (h : (encodeBody t).all (fun c => !(c == '\r' || c == '\n')) = true) :
    decodeLine (encode t) = decode (encodeBody t) := by
  unfold decodeLine encode
  rw [trimNl_body_all h]

lemma headOk_at (l : CStr) : headOk ('@' :: l) = true := rfl

lemma decode_plain {d ty tx : CStr} (hd : tokOkB 10 d = true)
    (hdp : priShapeB d = false) (hdx : d ≠ ['x']) (hty : tokOkB 31 ty = true)
    (htxhead : headOk tx = true) (htxlen : tx.length ≤ 511) :
    decode (d ++ ' ' :: ('@' :: (ty ++ ' ' :: tx))) =
      { completed := false, completion_date := [], date := d, priority := [],
        type := ty, text := tx } := by
  obtain ⟨hdne, hdlen, hdall⟩ := tokOkB_unpack hd
  have hs1 := step1_skip ('@' :: (ty ++ ' ' :: tx)) hdne hdall hdx
  have hpri := stepPri_none (priShapeB_append ('@' :: (ty ++ ' ' :: tx)) hdne hdall hdp)
  have hdate := stepDate_exact ('@' :: (ty ++ ' ' :: tx)) hd (headOk_at _)
  have hpri2 : stepPri ('@' :: (ty ++ ' ' :: tx)) = ([], '@' :: (ty ++ ' ' :: tx)) :=
    stepPri_none (priShapeB_not_paren (by decide))
  have hty2 := stepType_exact hty htxhead
  unfold decode
  rw [hs1]
  dsimp only
  rw [hpri]
  dsimp only
  rw [hdate]
  dsimp only
  rw [if_pos rfl, hpri2]
  dsimp only
  rw [hty2]
  dsimp only
  rw [List.take_of_length_le htxlen]

lemma decode_completed {cd d ty tx : CStr} (hcd : tokOkB 10 cd = true)
    (hd : tokOkB 10 d = true) (hdp : priShapeB d = false)
    (hty : tokOkB 31 ty = true) (htxhead : headOk tx = true)
    (htxlen : tx.length ≤ 511) :
    decode ('x' :: ' ' :: (cd ++ ' ' :: (d ++ ' ' :: ('@' :: (ty ++ ' ' :: tx))))) =
      { completed := true, completion_date := cd, date := d, priority := [],
        type := ty, text := tx } := by
  obtain ⟨hdne, hdlen, hdall⟩ := tokOkB_unpack hd
  have hdHead : headOk (d ++ ' ' :: ('@' :: (ty ++ ' ' :: tx))) = true :=
    headOk_of_tok _ hdne hdall
  have hs1 := step1_completed (d ++ ' ' :: ('@' :: (ty ++ ' ' :: tx))) hcd hdHead
  have hpri := stepPri_none (priShapeB_append ('@' :: (ty ++ ' ' :: tx)) hdne hdall hdp)
  have hdate := stepDate_exact ('@' :: (ty ++ ' ' :: tx)) hd (headOk_at _)
  have hpri2 : stepPri ('@' :: (ty ++ ' ' :: tx)) = ([], '@' :: (ty ++ ' ' :: tx)) :=
    stepPri_none (priShapeB_not_paren (by decide))
  have hty2 := stepType_exact hty htxhead
  unfold decode
  rw [hs1]
  dsimp only
  rw [hpri]
  dsimp only
  rw [hdate]
  dsimp only
  rw [if_pos rfl, hpri2]
  dsimp only
  rw [hty2]
  dsimp only
  rw [List.take_of_length_le htxlen]

lemma decode_priority {c : Char} {d ty tx : CStr} (hc : isalphaB c = true)
    (hd : tokOkB 10 d = true) (hty : tokOkB 31 ty = true)
    (htxhead : headOk tx = true) (htxlen : tx.length ≤ 511) :
    decode ('(' :: c :: ')' :: ' ' :: (d ++ ' ' :: ('@' :: (ty ++ ' ' :: tx)))) =
      { completed := false, completion_date := [], date := d,
        priority := ['(', c, ')'], type := ty, text := tx } := by
  obtain ⟨hdne, hdlen, hdall⟩ := tokOkB_unpack hd
  have hdHead : headOk (d ++ ' ' :: ('@' :: (ty ++ ' ' :: tx))) = true :=
    headOk_of_tok _ hdne hdall
  have hs1 : step1 ('(' :: c :: ')' :: ' ' :: (d ++ ' ' :: ('@' :: (ty ++ ' ' :: tx)))) =
      (false, [], '(' :: c :: ')' :: ' ' :: (d ++ ' ' :: ('@' :: (ty ++ ' ' :: tx)))) := by
    unfold step1
    rw [if_neg (by intro h; exact absurd (List.head_eq_of_cons_eq h) (by decide))]
  have hhit := stepPri_hit (d ++ ' ' :: ('@' :: (ty ++ ' ' :: tx))) hc hdHead
  have hdate := stepDate_exact ('@' :: (ty ++ ' ' :: tx)) hd (headOk_at _)
  have hty2 := stepType_exact hty htxhead
  unfold decode
  rw [hs1]
  dsimp only
  rw [hhit]
  dsimp only
  rw [hdate]
  dsimp only
  rw [if_neg (List.cons_ne_nil '(' [c, ')'])]
  dsimp only
  rw [hty2]
  dsimp only
  rw [List.take_of_length_le htxlen]

lemma noCRLF_forms {s : CStr} (h : ∀ c ∈ s, (c == '\r' || c == '\n') = false) :
    ∀ x ∈ s, ¬ x = '\r' ∧ ¬ x = '\n' := by
  intro x hx
  have h2 := h x hx
  simp only [Bool.or_eq_false_iff, beq_eq_false_iff_ne, ne_eq] at h2
  exact h2

lemma isalphaB_noCRLF {c : Char} (h : isalphaB c = true) :
    (c == '\r' || c == '\n') = false := by
  simp only [isalphaB, Bool.or_eq_true, Bool.and_eq_true, decide_eq_true_eq] at h
  have hne1 : c ≠ '\r' := by
    rintro rfl
    rcases h with ⟨h1, _⟩ | ⟨h1, _⟩ <;> exact absurd h1 (by decide)
  have hne2 : c ≠ '\n' := by
    rintro rfl
    rcases h with ⟨h1, _⟩ | ⟨h1, _⟩ <;> exact absurd h1 (by decide)
  simp [hne1, hne2]

/-- Claim C1, counterexample: `add_new_todo` accepts user text beginning
with whitespace, and decoding strips that leading whitespace after the
category token, so a record produced by the interactive add with text
`" hi"` does not survive the encode/decode round trip. -/
theorem c1_roundtrip_counterexample :
    decodeLine (encode (mkNewTodo "2025-01-04".toList "work".toList " hi".toList)) ≠
      mkNewTodo "2025-01-04".toList "work".toList " hi".toList := by
  decide

/-- Claim C1, amended: `Decode(Encode(r)) = r` for every well-formed record:
whitespace-free date of at most 10 characters that is neither a priority
token shape nor the bare `"x"`, a whitespace-free category of at most 31
characters, text of at most 511 characters without CR/LF and without leading
whitespace, completed records carrying a well-formed completion date and an
empty priority, and incomplete records carrying an empty completion date and
an empty or well-formed `"(X)"` priority.  Records produced by the mutation
operations from whitespace-free prompts satisfy these conditions, but the
prompts also accept text with leading whitespace, which breaks the round
trip. -/
theorem c1_roundtrip_amended (t : Todo)
    (hd : tokOkB 10 t.date = true)
    (hdp : priShapeB t.date = false)
    (hdx : t.date ≠ ['x'])
    (hty : tokOkB 31 t.type = true)
    (htx : textOkB t.text = true)
    (hcp : t.completed = true → tokOkB 10 t.completion_date = true ∧ t.priority = [])
    (hic : t.completed = false → t.completion_date = [] ∧
      (t.priority = [] ∨ ∃ c, isalphaB c = true ∧ t.priority = ['(', c, ')'])) :
    decodeLine (encode t) = t := by
  obtain ⟨comp, cd, d, pri, ty, tx⟩ := t
  simp only at hd hdp hdx hty htx hcp hic
  obtain ⟨hdne, hdlen, hdall⟩ := tokOkB_unpack hd
  obtain ⟨htyne, htylen, htyall⟩ := tokOkB_unpack hty
  obtain ⟨htxlen, htxcrlf, htxhead⟩ := textOkB_unpack htx
  have hdcr := noCRLF_forms (nonspace_noCRLF hdall)
  have htycr := noCRLF_forms (nonspace_noCRLF htyall)
  have htxcr := noCRLF_forms htxcrlf
  cases comp with
  | true =>
    obtain ⟨hcd, hpri⟩ := hcp rfl
    obtain ⟨hcdne, hcdlen, hcdall⟩ := tokOkB_unpack hcd
    have hcdcr := noCRLF_forms (nonspace_noCRLF hcdall)
    subst hpri
    have hshape : encodeBody ⟨true, cd, d, [], ty, tx⟩ =
        'x' :: ' ' :: (cd ++ ' ' :: (d ++ ' ' :: ('@' :: (ty ++ ' ' :: tx)))) := rfl
    rw [decodeLine_encode _ (by
      rw [hshape]
      simp only [List.all_append, List.all_cons, List.all_eq_true, Bool.and_eq_true]
      simp only [Bool.or_eq_false_iff, Bool.not_eq_true', beq_eq_false_iff_ne, ne_eq]
      exact ⟨by decide, by decide, hcdcr, by decide, hdcr, by decide, by decide, htycr,
        by decide, htxcr⟩)]
    rw [hshape]
    exact decode_completed hcd hd hdp hty htxhead htxlen
  | false =>
    obtain ⟨hcd0, hpris⟩ := hic rfl
    subst hcd0
    rcases hpris with hpri | ⟨c, hcal, hpri⟩
    · subst hpri
      have hshape : encodeBody ⟨false, [], d, [], ty, tx⟩ =
          d ++ ' ' :: ('@' :: (ty ++ ' ' :: tx)) := rfl
      rw [decodeLine_encode _ (by
        rw [hshape]
        simp only [List.all_append, List.all_cons, List.all_eq_true, Bool.and_eq_true]
        simp only [Bool.or_eq_false_iff, Bool.not_eq_true', beq_eq_false_iff_ne, ne_eq]
        exact ⟨hdcr, by decide, by decide, htycr, by decide, htxcr⟩)]
      rw [hshape]
      exact decode_plain hd hdp hdx hty htxhead htxlen
    · subst hpri
      have hshape : encodeBody ⟨false, [], d, ['(', c, ')'], ty, tx⟩ =
          '(' :: c :: ')' :: ' ' :: (d ++ ' ' :: ('@' :: (ty ++ ' ' :: tx))) := rfl
      rw [decodeLine_encode _ (by
        rw [hshape]
        have hccr : ¬ c = '\r' ∧ ¬ c = '\n' := by
          have h2 := isalphaB_noCRLF hcal
          simp only [Bool.or_eq_false_iff, beq_eq_false_iff_ne, ne_eq] at h2
          exact h2
        simp only [List.all_append, List.all_cons, List.all_eq_true, Bool.and_eq_true]
        simp only [Bool.or_eq_false_iff, Bool.not_eq_true', beq_eq_false_iff_ne, ne_eq]
        exact ⟨by decide, hccr, by decide, by decide, hdcr, by decide, by decide, htycr,
          by decide, htxcr⟩)]
      rw [hshape]
      exact decode_priority hcal hd hty htxhead htxlen

/-- Claim C1, witness for the amended round trip at a concrete record. -/
theorem c1_roundtrip_witness :
    decodeLine (encode (Todo.mk false [] "2025-01-04".toList "(A)".toList
      "work".toList "buy milk".toList)) =
      Todo.mk false [] "2025-01-04".toList "(A)".toList "work".toList
        "buy milk".toList :=
  c1_roundtrip_amended _ (by decide) (by decide) (by decide) (by decide) (by decide)
    (by intro h; exact absurd h (by decide))
    (fun _ => ⟨rfl, Or.inr ⟨'A', by decide, rfl⟩⟩)

/-! ### Priority-folding lemmas (claim C2) -/

lemma isPrefixOfIff {p l : CStr} : p.isPrefixOf l = true ↔ p <+: l :=
  List.isPrefixOf_iff_prefix

lemma findSub_cons (pat : CStr) (a : Char) (l : CStr) :
    findSub pat (a :: l) =
      if pat.isPrefixOf (a :: l) then some 0 else (findSub pat l).map (· + 1) := rfl

lemma findSub_none_unpack {pat : CStr} {a : Char} {l : CStr}
    (h : findSub pat (a :: l) = none) :
    pat.isPrefixOf (a :: l) = false ∧ findSub pat l = none := by
  rw [findSub_cons] at h
  cases hpre : pat.isPrefixOf (a :: l) with
  | true => rw [hpre] at h; simp at h
  | false =>
    rw [hpre, if_neg (by simp)] at h
    exact ⟨rfl, by simpa using h⟩

lemma findSub_zero {p l : CStr} (hp : p ≠ []) (h : p.isPrefixOf l = true) :
    findSub p l = some 0 := by
  cases l with
  | nil =>
    cases p with
    | nil => exact absurd rfl hp
    | cons a tl => simp [List.isPrefixOf] at h
  | cons a tl =>
    rw [findSub_cons, if_pos h]

lemma findSub_extend_none {tx : CStr} {c : Char}
    (h : findSub priMarker tx = none) :
    findSub (priMarker ++ [c]) tx = none := by
  induction tx with
  | nil => rfl
  | cons a tl ih =>
    obtain ⟨hpre, htl⟩ := findSub_none_unpack h
    have hpre2 : (priMarker ++ [c]).isPrefixOf (a :: tl) = false := by
      by_contra hcon
      rw [Bool.not_eq_false] at hcon
      have h2 : priMarker <+: (a :: tl) :=
        (List.prefix_append priMarker [c]).trans (isPrefixOfIff.mp hcon)
      rw [← isPrefixOfIff] at h2
      rw [h2] at hpre
      cases hpre
    rw [findSub_cons, if_neg (by simp [hpre2]), ih htl]
    rfl

lemma marker_not_pref_append {l : CStr} (c : Char) (hl : l ≠ [])
    (h : priMarker.isPrefixOf l = false) :
    priMarker.isPrefixOf (l ++ (priMarker ++ [c])) = false := by
  by_contra hcon
  rw [Bool.not_eq_false] at hcon
  have hpre : priMarker <+: (l ++ (priMarker ++ [c])) := isPrefixOfIff.mp hcon
  have h4 := List.prefix_iff_eq_take.mp hpre
  match l, hl, h, h4 with
  | [a], _, _, h4 =>
    have h5 : priMarker = [a, ' ', 'p', 'r', 'i'] := h4
    simp [priMarker] at h5
  | [a, b], _, _, h4 =>
    have h5 : priMarker = [a, b, ' ', 'p', 'r'] := h4
    simp [priMarker] at h5
  | [a, b, d], _, _, h4 =>
    have h5 : priMarker = [a, b, d, ' ', 'p'] := h4
    simp [priMarker] at h5
  | [a, b, d, e], _, _, h4 =>
    have h5 : priMarker = [a, b, d, e, ' '] := h4
    simp [priMarker] at h5
  | a :: b :: d :: e :: f :: tl2, _, h, h4 =>
    have h5 : priMarker = [a, b, d, e, f] := h4
    have h6 : priMarker.isPrefixOf (a :: b :: d :: e :: f :: tl2) = true := by
      rw [isPrefixOfIff, h5]
      exact ⟨tl2, rfl⟩
    rw [h6] at h
    cases h

lemma findSub_append_marker {tx : CStr} (c : Char)
    (h : findSub priMarker tx = none) :
    findSub priMarker (tx ++ (priMarker ++ [c])) = some tx.length := by
  induction tx with
  | nil =>
    show findSub priMarker (priMarker ++ [c]) = some 0
    exact findSub_zero (by decide)
      (isPrefixOfIff.mpr (List.prefix_append priMarker [c]))
  | cons a tl ih =>
    obtain ⟨hpre, htl⟩ := findSub_none_unpack h
    have hpre2 : priMarker.isPrefixOf (a :: (tl ++ (priMarker ++ [c]))) = false :=
      marker_not_pref_append c (List.cons_ne_nil a tl) hpre
    rw [List.cons_append, findSub_cons, if_neg (by simp [hpre2]), ih htl]
    rfl

/-- Claim C2, counterexample: on a record whose text already contains an
earlier `" pri:"` occurrence (`"a pri: b"`), toggling completion twice does
not restore the priority — `strstr` finds the first occurrence, whose tail
is not the six-character `" pri:X"` suffix, so the fold is never undone. -/
theorem c2_fold_counterexample :
    (toggleRecord "2025-03-03".toList (toggleRecord "2025-02-02".toList
      (Todo.mk false [] "2025-01-04".toList "(B)".toList "work".toList
        "a pri: b".toList))).priority ≠ "(B)".toList := by
  decide

/-- Claim C2, amended: for a not-completed record with priority `"(B)"`
whose text contains no `" pri:"` substring, has at most 505 characters and
no trailing whitespace, the first toggle holds the priority only as the
`" pri:B"` suffix of the text, and the second toggle restores the priority
and the exact original text (with an empty completion date). -/
theorem c2_fold_amended (t : Todo) (c : Char) (d1 d2 : CStr)
    (h0 : t.completed = false)
    (h1 : t.priority = ['(', c, ')'])
    (hal : isalphaB c = true)
    (h2 : findSub priMarker t.text = none)
    (h3 : t.text.length ≤ 505)
    (h4 : rtrim t.text = t.text) :
    (toggleRecord d1 t).completed = true ∧
    (toggleRecord d1 t).priority = [] ∧
    (toggleRecord d1 t).text = t.text ++ (priMarker ++ [c]) ∧
    toggleRecord d2 (toggleRecord d1 t) =
      Todo.mk false [] t.date ['(', c, ')'] t.type t.text := by
  obtain ⟨comp, cd, d, pri, ty, tx⟩ := t
  simp only at h0 h1 h2 h3 h4 ⊢
  subst h0
  subst h1
  have htag : findSub (priMarker ++ [c]) tx = none := findSub_extend_none h2
  have hcond1 : ((findSub (priMarker ++ [c]) tx).isNone &&
      decide (tx.length + (priMarker ++ [c]).length < 512)) = true := by
    rw [htag]
    simp [priMarker]
    omega
  have tog1 : toggleRecord d1 (Todo.mk false cd d ['(', c, ')'] ty tx) =
      Todo.mk true d1 d [] ty (tx ++ (priMarker ++ [c])) := by
    have hred : toggleRecord d1 (Todo.mk false cd d ['(', c, ')'] ty tx) =
        Todo.mk true d1 d [] ty
          (if ((findSub (priMarker ++ [c]) tx).isNone &&
              decide (tx.length + (priMarker ++ [c]).length < 512)) = true
           then tx ++ (priMarker ++ [c]) else tx) := rfl
    rw [hred, if_pos hcond1]
  have hfind := findSub_append_marker c h2
  have hget : (priMarker ++ [c]).get? 5 = some c := rfl
  have hcond2 : (decide ((priMarker ++ [c]).length = 6) && isalphaB c) = true := by
    simp [priMarker, hal]
  have tog2 : toggleRecord d2 (Todo.mk true d1 d [] ty (tx ++ (priMarker ++ [c]))) =
      Todo.mk false [] d ['(', c, ')'] ty tx := by
    have hred : toggleRecord d2 (Todo.mk true d1 d [] ty (tx ++ (priMarker ++ [c]))) =
        (match findSub priMarker (tx ++ (priMarker ++ [c])) with
         | none => Todo.mk false [] d [] ty (tx ++ (priMarker ++ [c]))
         | some i =>
           match ((tx ++ (priMarker ++ [c])).drop i).get? 5 with
           | none => Todo.mk false [] d [] ty (tx ++ (priMarker ++ [c]))
           | some c5 =>
             if (decide (((tx ++ (priMarker ++ [c])).drop i).length = 6) &&
                 isalphaB c5) = true then
               Todo.mk false [] d ['(', c5, ')'] ty
                 (rtrim ((tx ++ (priMarker ++ [c])).take i))
             else Todo.mk false [] d [] ty (tx ++ (priMarker ++ [c]))) := rfl
    rw [hred, hfind]
    dsimp only
    rw [List.drop_left, hget]
    dsimp only
    rw [if_pos hcond2, List.take_left, h4]
  exact ⟨by rw [tog1], by rw [tog1], by rw [tog1], by rw [tog1, tog2]⟩

/-- Claim C2, witness for the amended theorem at a concrete record. -/
theorem c2_fold_witness :
    toggleRecord "2025-03-03".toList (toggleRecord "2025-02-02".toList
      (Todo.mk false [] "2025-01-04".toList "(B)".toList "work".toList
        "buy milk".toList)) =
      Todo.mk false [] "2025-01-04".toList "(B)".toList "work".toList
        "buy milk".toList :=
  (c2_fold_amended (Todo.mk false [] "2025-01-04".toList "(B)".toList
      "work".toList "buy milk".toList) 'B' "2025-02-02".toList "2025-03-03".toList
    rfl rfl (by decide) (by decide) (by decide) (by decide)).2.2.2
